import Mathlib

/-!
Verification of the m3u8 master-playlist parser (src/lib.rs).

Rust strings are modelled as lists of characters (`Str`); UTF-8 byte-wise
comparison used by `str::cmp` coincides with code-point lexicographic order,
which is what `lexLe` below implements.  `HashMap<String, String>` is modelled
as an association list with overwrite-on-insert (`recInsert`); lookup
(`recGet`) is the only observation the program makes of a map.
-/

/-- A Rust `String` / `&str`, modelled as its list of characters. -/
abbrev Str := List Char

/-- Coerce a Lean string literal to the `Str` model. -/
def str (s : String) : Str := s.data

/-- Model of Rust `str::split(c)`: splits a string at every occurrence of the
separator, keeping empty segments; the result is never the empty list. -/
def splitOnChar (c : Char) : Str → List Str
  | [] => [[]]
  | x :: xs =>
    if x = c then [] :: splitOnChar c xs
    else
      match splitOnChar c xs with
      | [] => [[x]]
      | p :: ps => (x :: p) :: ps

/-- Model of `value.replace(&['\"', '\''][..], "")` in `get_key_value_pair`:
removes every double- and single-quote character. -/
def stripQuotes (v : Str) : Str := v.filter (fun c => !(c = '"' || c = '\''))

/-- An attribute record: model of `HashMap<String, String>`. -/
abbrev AttrRecord := List (Str × Str)

/-- Model of `HashMap::get`. -/
def recGet (r : AttrRecord) (k : Str) : Option Str :=
  (r.find? (fun p => p.1 = k)).map (fun p => p.2)

/-- Model of `HashMap::insert`: a later insert of the same key overwrites. -/
def recInsert (r : AttrRecord) (k v : Str) : AttrRecord :=
  (k, v) :: r.filter (fun p => ¬ p.1 = k)

/-- The string value at `k`, defaulting to the empty string: model of the
`match a.get(sort_by) ... None => ""` pattern in `sort_list_by_key`. -/
def recKeyVal (k : Str) (r : AttrRecord) : Str :=
  match recGet r k with
  | some v => v
  | none => []

/-- Code-point lexicographic order on strings; agrees with Rust's
byte-lexicographic `str::cmp` because UTF-8 byte order equals code-point
order. -/
def lexLe : Str → Str → Bool
  | [], _ => true
  | _ :: _, [] => false
  | a :: as, b :: bs =>
    if a < b then true
    else if b < a then false
    else lexLe as bs

/- ----------------------------------------------------------------- -/
/- Tag constants and classification (TagTypes, FromStr)              -/
/- ----------------------------------------------------------------- -/

def EXTM3U : Str := str "#EXTM3U"
def EXT_X_INDEPENDENT_SEGMENTS : Str := str "#EXT-X-INDEPENDENT-SEGMENTS"
def EXT_X_VERSION : Str := str "#EXT-X-VERSION"
def EXT_X_MEDIA : Str := str "#EXT-X-MEDIA"
def EXT_X_I_FRAME_STREAM_INF : Str := str "#EXT-X-I-FRAME-STREAM-INF"
def EXT_X_STREAM_INF : Str := str "#EXT-X-STREAM-INF"

/-- The M3U8 tag kinds (`enum TagTypes`). -/
inductive TagTypes
  | ExtM3U
  | ExtXIndependentSegments
  | ExtXVersion
  | ExtXMedia
  | ExtXIFrameStreamInf
  | ExtXStreamInf
deriving DecidableEq, Repr

/-- `TagTypes::from_str`: exact string equality against the six tag names;
`none` models `Err(())`. -/
def TagTypes.from_str (input : Str) : Option TagTypes :=
  if input = EXTM3U then some TagTypes.ExtM3U
  else if input = EXT_X_INDEPENDENT_SEGMENTS then some TagTypes.ExtXIndependentSegments
  else if input = EXT_X_VERSION then some TagTypes.ExtXVersion
  else if input = EXT_X_MEDIA then some TagTypes.ExtXMedia
  else if input = EXT_X_I_FRAME_STREAM_INF then some TagTypes.ExtXIFrameStreamInf
  else if input = EXT_X_STREAM_INF then some TagTypes.ExtXStreamInf
  else none

/-- Parse error kinds (`enum ParseError`); the payload of the transport error
is irrelevant to the core and omitted. -/
inductive ParseError
  | InvalidM3U8 (msg : Str)
  | ReqwestError
deriving DecidableEq, Repr

/- ----------------------------------------------------------------- -/
/- The M3U8 structure and its methods                                 -/
/- ----------------------------------------------------------------- -/

/-- The parse result (`struct M3U8`). -/
structure M3U8 where
  independent_segments : Bool
  version : Str
  media_tags : List AttrRecord
  variant_streams : List AttrRecord
  media_resources : List AttrRecord
deriving DecidableEq, Repr

/-- `M3U8::new`: default with version "2". -/
def M3U8.new : M3U8 :=
  { independent_segments := false
    version := str "2"
    media_tags := []
    variant_streams := []
    media_resources := [] }

/-- `M3U8::validate`: note that both checks classify the WHOLE line with
`from_str`, without splitting on ':'. -/
def M3U8.validate (lines : List Str) : Except ParseError Unit :=
  match lines.head? with
  | none => Except.error (ParseError.InvalidM3U8 (str "Invalid M3U8 format"))
  | some intro =>
    if TagTypes.from_str intro ≠ some TagTypes.ExtM3U then
      Except.error (ParseError.InvalidM3U8 (str "Missing #EXTM3U"))
    else if 1 < (lines.filter
        (fun n => decide (TagTypes.from_str n = some TagTypes.ExtXVersion))).length then
      Except.error (ParseError.InvalidM3U8
        (str "Invalid M3U8, multiple version tags found."))
    else Except.ok ()

/-- `M3U8::get_key_value_pair`: the Rust code takes the first two segments of
`item.split('=')`: the key, and the value with quote characters removed;
a missing second segment yields `None`. -/
def get_key_value_pair (item : Str) : Option (Str × Str) :=
  match splitOnChar '=' item with
  | [] => none
  | [_] => none
  | k :: v :: _ => some (k, stripQuotes v)

/-- One step of the `by_attribute` loop body. -/
def by_attribute_step (acc : AttrRecord) (item : Str) : AttrRecord :=
  match get_key_value_pair item with
  | some (k, v) => recInsert acc k v
  | none => acc

/-- `M3U8::by_attribute`: split the payload on ',' and collect key/value
pairs into a map. -/
def by_attribute (data : Str) : AttrRecord :=
  (splitOnChar ',' data).foldl by_attribute_step []

/-- `M3U8::by_value`: first two segments of `line.split(':')`, each
defaulting to the empty string. -/
def by_value (line : Str) : Str × Str :=
  match splitOnChar ':' line with
  | [] => ([], [])
  | [t] => (t, [])
  | t :: d :: _ => (t, d)

/-- The token before the first ':' of a line (`tag.first()` in `parse`);
`splitOnChar` never returns `[]`, so the default is never used. -/
def headToken (line : Str) : Str := (splitOnChar ':' line).headD []

/-- Classification of a line as done inside `M3U8::parse`. -/
def lineTag (line : Str) : Option TagTypes := TagTypes.from_str (headToken line)

/-- The record pushed for a stream-info line with consumed URI `uri`. -/
def streamInfRecord (line uri : Str) : AttrRecord :=
  recInsert (by_attribute (by_value line).2) (str "uri") uri

/-- `M3U8::parse`: one forward pass; a stream-info tag consumes the next
line from the iterator as its URI (empty string when no line remains).
The loop body is unrolled into the last-line case (the iterator is empty
after `line`) and the general case, so that the consumption of the
following line is a structural recursion.  The source's `else break` for
an absent first split segment is unreachable since `split` always yields
a first segment. -/
def M3U8.parse (m : M3U8) : List Str → M3U8
  | [] => m
  | [line] =>
    match TagTypes.from_str (headToken line) with
    | some TagTypes.ExtM3U => m
    | some TagTypes.ExtXIndependentSegments => { m with independent_segments := true }
    | some TagTypes.ExtXVersion => { m with version := (by_value line).2 }
    | some TagTypes.ExtXMedia =>
        { m with media_tags := m.media_tags ++ [by_attribute (by_value line).2] }
    | some TagTypes.ExtXIFrameStreamInf =>
        { m with media_resources := m.media_resources ++ [by_attribute (by_value line).2] }
    | some TagTypes.ExtXStreamInf =>
        { m with variant_streams := m.variant_streams ++ [streamInfRecord line []] }
    | none => m
  | line :: next :: rest =>
    match TagTypes.from_str (headToken line) with
    | some TagTypes.ExtM3U => M3U8.parse m (next :: rest)
    | some TagTypes.ExtXIndependentSegments =>
        M3U8.parse { m with independent_segments := true } (next :: rest)
    | some TagTypes.ExtXVersion =>
        M3U8.parse { m with version := (by_value line).2 } (next :: rest)
    | some TagTypes.ExtXMedia =>
        M3U8.parse { m with media_tags := m.media_tags ++ [by_attribute (by_value line).2] } (next :: rest)
    | some TagTypes.ExtXIFrameStreamInf =>
        M3U8.parse { m with media_resources := m.media_resources ++ [by_attribute (by_value line).2] } (next :: rest)
    | some TagTypes.ExtXStreamInf =>
        M3U8.parse { m with variant_streams := m.variant_streams ++ [streamInfRecord line next] } rest
    | none => M3U8.parse m (next :: rest)

/-- Insert into a list sorted by `le`, keeping it sorted. -/
def sortedInsert {α : Type} (le : α → α → Bool) (x : α) : List α → List α
  | [] => [x]
  | y :: ys => if le x y then x :: y :: ys else y :: sortedInsert le x ys

/-- The comparator of `M3U8::sort_list_by_key`: compare the values at the
sort key, a missing key reading as the empty string. -/
def sortKeyLe (sort_by : Str) (a b : AttrRecord) : Bool :=
  lexLe (recKeyVal sort_by a) (recKeyVal sort_by b)

/-- `M3U8::sort_list_by_key`, modelled as an insertion sort with the same
comparator (the claim requires only a permutation sorted by the comparator,
which any comparison sort satisfies). -/
def sort_list_by_key (list : List AttrRecord) (sort_by : Str) : List AttrRecord :=
  list.foldr (sortedInsert (sortKeyLe sort_by)) []

/-- `M3U8::get_media_resources`: sorts the stored group in place, then
returns a clone; the pair is (returned clone, state after the call). -/
def M3U8.get_media_resources (m : M3U8) (sort_by : Str) : List AttrRecord × M3U8 :=
  let sorted := sort_list_by_key m.media_resources sort_by
  (sorted, { m with media_resources := sorted })

/-- `M3U8::get_media_tags`. -/
def M3U8.get_media_tags (m : M3U8) (sort_by : Str) : List AttrRecord × M3U8 :=
  let sorted := sort_list_by_key m.media_tags sort_by
  (sorted, { m with media_tags := sorted })

/-- `M3U8::get_variant_streams`. -/
def M3U8.get_variant_streams (m : M3U8) (sort_by : Str) : List AttrRecord × M3U8 :=
  let sorted := sort_list_by_key m.variant_streams sort_by
  (sorted, { m with variant_streams := sorted })

/-- Strip one trailing carriage return (the `\r` of a `\r\n` line ending). -/
def stripCR (s : Str) : Str := if s.getLast? = some '\r' then s.dropLast else s

/-- Model of Rust `str::lines()`: split on '\n'; every segment except the
final one was terminated by a '\n' and loses one trailing '\r'. -/
def rustLines (body : Str) : List Str :=
  let ps := splitOnChar '\n' body
  ps.dropLast.map stripCR ++ [ps.getLastD []]

/-- The line normalization of `M3U8::from_uri`: split the body into lines and
drop the empty ones. -/
def normalizeLines (body : Str) : List Str :=
  (rustLines body).filter (fun m => ¬ m = [])

/-- The fetch-free tail of `M3U8::from_uri`: normalize, validate, then parse
from a fresh `M3U8::new`.  The fetch itself is the external collaborator and
is not modelled. -/
def parseBody (body : Str) : Except ParseError M3U8 :=
  let lines := normalizeLines body
  match M3U8.validate lines with
  | Except.error e => Except.error e
  | Except.ok _ => Except.ok (M3U8.parse M3U8.new lines)


/- ----------------------------------------------------------------- -/
/- Spec-side views of the forward pass                                -/
/- ----------------------------------------------------------------- -/

/-- The lines at which the parse cursor actually arrives: a stream-info line
removes the line after it from consideration (it is consumed as the URI). -/
def processedLines : List Str → List Str
  | [] => []
  | [line] => [line]
  | line :: next :: rest =>
    match TagTypes.from_str (headToken line) with
    | some TagTypes.ExtXStreamInf => line :: processedLines rest
    | _ => line :: processedLines (next :: rest)

/-- The (stream-info line, consumed URI) pairs produced by the forward pass,
in order; the URI defaults to the empty string at the end of input. -/
def streamInfPairs : List Str → List (Str × Str)
  | [] => []
  | [line] =>
    match TagTypes.from_str (headToken line) with
    | some TagTypes.ExtXStreamInf => [(line, [])]
    | _ => []
  | line :: next :: rest =>
    match TagTypes.from_str (headToken line) with
    | some TagTypes.ExtXStreamInf => (line, next) :: streamInfPairs rest
    | _ => streamInfPairs (next :: rest)

theorem parse_variant_streams (m : M3U8) (lines : List Str) :
    (M3U8.parse m lines).variant_streams =
      m.variant_streams ++ (streamInfPairs lines).map (fun p => streamInfRecord p.1 p.2) := by
  induction m, lines using M3U8.parse.induct <;>
    · rw [M3U8.parse.eq_def, streamInfPairs.eq_def]
      simp_all

theorem parse_nil (m : M3U8) : M3U8.parse m [] = m := rfl

theorem parse_cons_skip (m : M3U8) (line : Str) (rest : List Str)
    (h : TagTypes.from_str (headToken line) = none) :
    M3U8.parse m (line :: rest) = M3U8.parse m rest := by
  rw [M3U8.parse.eq_def]
  cases rest <;> simp [h, parse_nil]

theorem parse_cons_stream_inf (m : M3U8) (line uri : Str) (rest : List Str)
    (h : TagTypes.from_str (headToken line) = some TagTypes.ExtXStreamInf) :
    M3U8.parse m (line :: uri :: rest) =
      M3U8.parse
        { m with variant_streams := m.variant_streams ++ [streamInfRecord line uri] } rest := by
  rw [M3U8.parse.eq_def]
  simp [h]

theorem parse_independent_segments (m : M3U8) (lines : List Str) :
    (M3U8.parse m lines).independent_segments =
      (m.independent_segments ||
        (processedLines lines).any
          (fun l => decide (TagTypes.from_str (headToken l) = some TagTypes.ExtXIndependentSegments))) := by
  induction m, lines using M3U8.parse.induct <;>
    · rw [M3U8.parse.eq_def, processedLines.eq_def]
      simp_all

theorem parse_version_unchanged (m : M3U8) (lines : List Str)
    (h : ∀ l ∈ lines, TagTypes.from_str (headToken l) ≠ some TagTypes.ExtXVersion) :
    (M3U8.parse m lines).version = m.version := by
  induction m, lines using M3U8.parse.induct <;>
    · rw [M3U8.parse.eq_def]
      try simp_all

theorem parse_version_cases (m : M3U8) (lines : List Str) :
    (M3U8.parse m lines).version = m.version ∨
      ∃ l ∈ lines, TagTypes.from_str (headToken l) = some TagTypes.ExtXVersion ∧
        (M3U8.parse m lines).version = (by_value l).2 := by
  induction m, lines using M3U8.parse.induct <;>
    · rw [M3U8.parse.eq_def]
      try simp_all
      try tauto

theorem from_str_m3u_iff (s : Str) :
    TagTypes.from_str s = some TagTypes.ExtM3U ↔ s = EXTM3U := by
  unfold TagTypes.from_str
  split_ifs <;> simp_all

theorem from_str_none_iff (s : Str) :
    TagTypes.from_str s = none ↔
      s ∉ [EXTM3U, EXT_X_INDEPENDENT_SEGMENTS, EXT_X_VERSION, EXT_X_MEDIA,
        EXT_X_I_FRAME_STREAM_INF, EXT_X_STREAM_INF] := by
  unfold TagTypes.from_str
  split_ifs <;> simp_all

theorem recGet_recInsert (r : AttrRecord) (k v : Str) :
    recGet (recInsert r k v) k = some v := by
  simp [recGet, recInsert, List.find?]

theorem splitOnChar_ne_nil (c : Char) (l : Str) : splitOnChar c l ≠ [] := by
  induction l with
  | nil => simp [splitOnChar]
  | cons x xs ih =>
    rw [splitOnChar]
    split_ifs
    · simp
    · cases h : splitOnChar c xs <;> simp

theorem splitOnChar_not_mem (c : Char) (l : Str) (h : c ∉ l) :
    splitOnChar c l = [l] := by
  induction l with
  | nil => rfl
  | cons x xs ih =>
    simp only [List.mem_cons] at h
    push_neg at h
    rw [splitOnChar, if_neg (fun hx => h.1 hx.symm), ih h.2]

theorem splitOnChar_append_cons (c : Char) (k v : Str) (hk : c ∉ k) :
    splitOnChar c (k ++ c :: v) = k :: splitOnChar c v := by
  induction k with
  | nil => simp [splitOnChar]
  | cons x xs ih =>
    simp only [List.mem_cons] at hk
    push_neg at hk
    rw [List.cons_append, splitOnChar, if_neg (fun hx => hk.1 hx.symm), ih hk.2]

theorem splitOnChar_head (c : Char) (v : Str) :
    ∃ ps, splitOnChar c v = v.takeWhile (fun x => x != c) :: ps := by
  induction v with
  | nil => exact ⟨[], rfl⟩
  | cons x xs ih =>
    obtain ⟨ps, hps⟩ := ih
    by_cases hx : x = c
    · subst hx
      exact ⟨splitOnChar x xs, by simp [splitOnChar, List.takeWhile]⟩
    · refine ⟨ps, ?_⟩
      rw [splitOnChar, if_neg hx, hps]
      have : (x != c) = true := by simp [hx]
      simp [List.takeWhile, this]

theorem lexLe_total : ∀ s t : Str, lexLe s t = true ∨ lexLe t s = true
  | [], _ => Or.inl rfl
  | _ :: _, [] => Or.inr rfl
  | a :: as, b :: bs => by
    rcases lt_trichotomy a b with h | h | h
    · left; simp [lexLe, h]
    · subst h
      rcases lexLe_total as bs with h2 | h2
      · left; simp [lexLe, h2]
      · right; simp [lexLe, h2]
    · right; simp [lexLe, h]

theorem lexLe_trans : ∀ s t u : Str,
    lexLe s t = true → lexLe t u = true → lexLe s u = true
  | [], _, _ => fun _ _ => rfl
  | a :: as, [], u => by simp [lexLe]
  | a :: as, b :: bs, [] => by intro _ h2; simp [lexLe] at h2
  | a :: as, b :: bs, c :: cs => by
    intro h1 h2
    rcases lt_trichotomy a b with hab | hab | hab
    · rcases lt_trichotomy b c with hbc | hbc | hbc
      · simp [lexLe, lt_trans hab hbc]
      · subst hbc; simp [lexLe, hab]
      · simp [lexLe, hbc, lt_asymm hbc] at h2
    · subst hab
      rcases lt_trichotomy a c with hac | hac | hac
      · simp [lexLe, hac]
      · subst hac
        simp only [lexLe, lt_irrefl, if_false] at h1 h2 ⊢
        exact lexLe_trans as bs cs h1 h2
      · simp [lexLe, hac, lt_asymm hac] at h2
    · simp [lexLe, hab, lt_asymm hab] at h1

theorem sortKeyLe_total (k : Str) (a b : AttrRecord) :
    sortKeyLe k a b = true ∨ sortKeyLe k b a = true :=
  lexLe_total (recKeyVal k a) (recKeyVal k b)

theorem sortKeyLe_trans (k : Str) (a b c : AttrRecord)
    (h1 : sortKeyLe k a b = true) (h2 : sortKeyLe k b c = true) :
    sortKeyLe k a c = true :=
  lexLe_trans (recKeyVal k a) (recKeyVal k b) (recKeyVal k c) h1 h2

theorem sortedInsert_perm {α : Type} (le : α → α → Bool) (x : α) :
    ∀ l : List α, (sortedInsert le x l).Perm (x :: l)
  | [] => List.Perm.refl _
  | y :: ys => by
    rw [sortedInsert]
    split_ifs
    · exact List.Perm.refl _
    · exact ((sortedInsert_perm le x ys).cons y).trans (List.Perm.swap x y ys)

theorem sortedInsert_pairwise {α : Type} (le : α → α → Bool)
    (htot : ∀ a b, le a b = true ∨ le b a = true)
    (htrans : ∀ a b c, le a b = true → le b c = true → le a c = true)
    (x : α) :
    ∀ l : List α, l.Pairwise (fun a b => le a b = true) →
      (sortedInsert le x l).Pairwise (fun a b => le a b = true)
  | [], _ => by simp [sortedInsert]
  | y :: ys, hp => by
    rw [List.pairwise_cons] at hp
    rw [sortedInsert]
    split_ifs with hxy
    · refine List.Pairwise.cons ?_ (List.Pairwise.cons hp.1 hp.2)
      intro b hb
      rcases List.mem_cons.mp hb with rfl | hb
      · exact hxy
      · exact htrans x y b hxy (hp.1 b hb)
    · refine List.Pairwise.cons ?_ (sortedInsert_pairwise le htot htrans x ys hp.2)
      intro b hb
      rcases List.mem_cons.mp ((sortedInsert_perm le x ys).mem_iff.mp hb) with rfl | hb
      · rcases htot b y with h | h
        · exact absurd h hxy
        · exact h
      · exact hp.1 b hb

theorem sort_list_by_key_perm (list : List AttrRecord) (sort_by : Str) :
    (sort_list_by_key list sort_by).Perm list := by
  induction list with
  | nil => exact List.Perm.refl _
  | cons r rs ih =>
    exact (sortedInsert_perm (sortKeyLe sort_by) r _).trans (ih.cons r)

theorem sort_list_by_key_sorted (list : List AttrRecord) (sort_by : Str) :
    (sort_list_by_key list sort_by).Pairwise (fun a b => sortKeyLe sort_by a b = true) := by
  induction list with
  | nil => simp [sort_list_by_key]
  | cons r rs ih =>
    exact sortedInsert_pairwise (sortKeyLe sort_by) (sortKeyLe_total sort_by)
      (sortKeyLe_trans sort_by) r _ ih

theorem parseBody_eq (body : Str) :
    parseBody body =
      match M3U8.validate (normalizeLines body) with
      | Except.error e => Except.error e
      | Except.ok _ => Except.ok (M3U8.parse M3U8.new (normalizeLines body)) := rfl

/- ----------------------------------------------------------------- -/
/- Claim theorems                                                     -/
/- ----------------------------------------------------------------- -/

/-- C5: each sorted accessor (get_media_tags / get_variant_streams /
get_media_resources) returns a copy of its record group that is a
permutation of the stored group and is ordered ascending by the string value
at the sort key, a record missing the key reading as the empty string; this
holds for every prior order of the group, including a reversed one. -/
theorem sorted_accessors_perm_and_sorted (m : M3U8) (k : Str) :
    ((M3U8.get_media_tags m k).1.Perm m.media_tags ∧
      (M3U8.get_media_tags m k).1.Pairwise (fun a b => sortKeyLe k a b = true)) ∧
    ((M3U8.get_variant_streams m k).1.Perm m.variant_streams ∧
      (M3U8.get_variant_streams m k).1.Pairwise (fun a b => sortKeyLe k a b = true)) ∧
    ((M3U8.get_media_resources m k).1.Perm m.media_resources ∧
      (M3U8.get_media_resources m k).1.Pairwise (fun a b => sortKeyLe k a b = true)) :=
  ⟨⟨sort_list_by_key_perm _ _, sort_list_by_key_sorted _ _⟩,
    ⟨sort_list_by_key_perm _ _, sort_list_by_key_sorted _ _⟩,
    ⟨sort_list_by_key_perm _ _, sort_list_by_key_sorted _ _⟩⟩

/-- C6: a document whose normalized (non-empty) line sequence is empty, or
whose first line is not exactly the #EXTM3U header token, fails to parse
with an InvalidM3U8 error, and no playlist is produced. -/
theorem missing_header_fails (body : Str)
    (h : normalizeLines body = [] ∨ (normalizeLines body).head? ≠ some (str "#EXTM3U")) :
    ∃ msg, parseBody body = Except.error (ParseError.InvalidM3U8 msg) := by
  rw [parseBody_eq]
  cases hn : normalizeLines body with
  | nil =>
    exact ⟨str "Invalid M3U8 format", rfl⟩
  | cons l rest =>
    have hl : l ≠ EXTM3U := by
      rcases h with h | h
      · rw [hn] at h; cases h
      · rw [hn] at h
        simpa [EXTM3U] using h
    have hfs : ¬ TagTypes.from_str l = some TagTypes.ExtM3U :=
      fun hc => hl ((from_str_m3u_iff l).mp hc)
    refine ⟨str "Missing #EXTM3U", ?_⟩
    simp [M3U8.validate, hfs]

theorem missing_header_fails_witness :
    ∃ msg, parseBody (str "hello") = Except.error (ParseError.InvalidM3U8 msg) :=
  missing_header_fails (str "hello") (Or.inr (by decide))

/-- C8: a line whose token before the first ':' is none of the six fixed tag
names classifies as unrecognized, and processing it leaves the accumulating
playlist unchanged, consumes no following line, and never fails. -/
theorem unrecognized_line_no_effect (m : M3U8) (line : Str) (rest : List Str)
    (h : headToken line ∉ [EXTM3U, EXT_X_INDEPENDENT_SEGMENTS, EXT_X_VERSION,
      EXT_X_MEDIA, EXT_X_I_FRAME_STREAM_INF, EXT_X_STREAM_INF]) :
    TagTypes.from_str (headToken line) = none ∧
      M3U8.parse m (line :: rest) = M3U8.parse m rest := by
  have hn := (from_str_none_iff (headToken line)).mpr h
  exact ⟨hn, parse_cons_skip m line rest hn⟩

theorem unrecognized_line_no_effect_witness :
    TagTypes.from_str (headToken (str "#EXT-X-FOO:BAR")) = none ∧
      M3U8.parse M3U8.new [str "#EXT-X-FOO:BAR"] = M3U8.parse M3U8.new [] :=
  unrecognized_line_no_effect M3U8.new (str "#EXT-X-FOO:BAR") [] (by decide)

/-- C9: parsing is deterministic: running the normalize-validate-parse
pipeline twice on the same raw text yields either the same error twice, or
two playlists with identical field contents. -/
theorem parse_deterministic (body : Str) :
    (∃ e1 e2, parseBody body = Except.error e1 ∧ parseBody body = Except.error e2 ∧
      e1 = e2) ∨
    (∃ p1 p2, parseBody body = Except.ok p1 ∧ parseBody body = Except.ok p2 ∧
      p1.independent_segments = p2.independent_segments ∧ p1.version = p2.version ∧
      p1.media_tags = p2.media_tags ∧ p1.variant_streams = p2.variant_streams ∧
      p1.media_resources = p2.media_resources) := by
  cases h : parseBody body with
  | error e => exact Or.inl ⟨e, e, rfl, rfl, rfl⟩
  | ok p => exact Or.inr ⟨p, p, rfl, rfl, rfl, rfl, rfl, rfl, rfl⟩

/-- C10: a stream-info tag unconditionally consumes the immediately
following line as its URI, even when that line is itself a recognized tag:
the consumed line is never dispatched, so two consecutive stream-info lines
produce exactly one variant_streams record whose uri is the second line. -/
theorem stream_inf_consumes_next_line :
    (∀ (m : M3U8) (line uri : Str) (rest : List Str),
        TagTypes.from_str (headToken line) = some TagTypes.ExtXStreamInf →
        M3U8.parse m (line :: uri :: rest) =
          M3U8.parse
            { m with variant_streams := m.variant_streams ++ [streamInfRecord line uri] }
            rest) ∧
      (M3U8.parse M3U8.new
          [str "#EXT-X-STREAM-INF:A=1", str "#EXT-X-STREAM-INF:B=2"]).variant_streams =
        [streamInfRecord (str "#EXT-X-STREAM-INF:A=1") (str "#EXT-X-STREAM-INF:B=2")] :=
  ⟨parse_cons_stream_inf, by decide⟩

theorem stream_inf_consumes_next_line_witness :
    M3U8.parse M3U8.new [str "#EXT-X-STREAM-INF:A=1", str "video.m3u8"] =
      M3U8.parse
        { M3U8.new with variant_streams :=
            M3U8.new.variant_streams ++
              [streamInfRecord (str "#EXT-X-STREAM-INF:A=1") (str "video.m3u8")] }
        [] :=
  stream_inf_consumes_next_line.1 M3U8.new (str "#EXT-X-STREAM-INF:A=1")
    (str "video.m3u8") [] (by decide)

/-- C1 (code bug): a document with two lines whose token before the first
':' is #EXT-X-VERSION is accepted: `validate` classifies whole lines, so a
version tag carrying a `:payload` never counts, the duplicate-version check
never fires, and the parse succeeds with the last payload as the version. -/
theorem duplicate_version_tags_accepted :
    ((normalizeLines (str "#EXTM3U\n#EXT-X-VERSION:3\n#EXT-X-VERSION:4")).countP
        (fun l => decide (TagTypes.from_str (headToken l) = some TagTypes.ExtXVersion))
      = 2) ∧
      parseBody (str "#EXTM3U\n#EXT-X-VERSION:3\n#EXT-X-VERSION:4") =
        Except.ok
          { independent_segments := false, version := str "4", media_tags := [],
            variant_streams := [], media_resources := [] } :=
  ⟨by decide, rfl⟩

/-- C2 (counterexample): a successful parse CAN yield an empty version: a
version tag with an empty payload passes validation and sets version to "". -/
theorem empty_version_payload_accepted :
    parseBody (str "#EXTM3U\n#EXT-X-VERSION:") =
      Except.ok
        { independent_segments := false, version := [], media_tags := [],
          variant_streams := [], media_resources := [] } := rfl

/-- C2 (amended): after a successful parse, version is either the payload of
one of the document's version-classified lines (which may be empty) or the
default "2". -/
theorem version_from_document_or_default (lines : List Str)
    (h : M3U8.validate lines = Except.ok ()) :
    (M3U8.parse M3U8.new lines).version = str "2" ∨
      ∃ l ∈ lines, TagTypes.from_str (headToken l) = some TagTypes.ExtXVersion ∧
        (M3U8.parse M3U8.new lines).version = (by_value l).2 :=
  parse_version_cases M3U8.new lines

theorem version_from_document_or_default_witness :
    (M3U8.parse M3U8.new [str "#EXTM3U", str "#EXT-X-VERSION:7"]).version = str "2" ∨
      ∃ l ∈ [str "#EXTM3U", str "#EXT-X-VERSION:7"],
        TagTypes.from_str (headToken l) = some TagTypes.ExtXVersion ∧
          (M3U8.parse M3U8.new [str "#EXTM3U", str "#EXT-X-VERSION:7"]).version =
            (by_value l).2 :=
  version_from_document_or_default [str "#EXTM3U", str "#EXT-X-VERSION:7"] rfl

/-- C3 (counterexample): for an item with two '=' the parsed value is the
segment between the first and second '=', not the entire substring after the
first '='. -/
theorem value_not_rest_after_first_eq :
    get_key_value_pair (str "A=B=C") = some (str "A", str "B") ∧
      str "B" ≠ str "B=C" := by decide

/-- C3 (amended): an item without '=' contributes no entry; an item with at
least one '=' splits into the part before the first '=' as the key and the
part between the first and second '=' as the value, with '"' and '\''
characters stripped from the value only. -/
theorem key_value_pair_first_segments :
    (∀ item : Str, '=' ∉ item → get_key_value_pair item = none) ∧
      (∀ k v : Str, '=' ∉ k →
        get_key_value_pair (k ++ '=' :: v) =
          some (k, stripQuotes (v.takeWhile (fun c => c != '=')))) ∧
      (∀ (acc : AttrRecord) (item : Str), '=' ∉ item → by_attribute_step acc item = acc) := by
  have h1 : ∀ item : Str, '=' ∉ item → get_key_value_pair item = none := by
    intro item h
    simp [get_key_value_pair, splitOnChar_not_mem '=' item h]
  have h2 : ∀ k v : Str, '=' ∉ k →
      get_key_value_pair (k ++ '=' :: v) =
        some (k, stripQuotes (v.takeWhile (fun c => c != '='))) := by
    intro k v hk
    obtain ⟨ps, hps⟩ := splitOnChar_head '=' v
    simp [get_key_value_pair, splitOnChar_append_cons '=' k v hk, hps]
  refine ⟨h1, h2, ?_⟩
  intro acc item h
  simp [by_attribute_step, h1 item h]

theorem key_value_pair_first_segments_witness :
    get_key_value_pair (str "KEY") = none ∧
      get_key_value_pair (str "K" ++ '=' :: str "\"v1\"") =
        some (str "K", stripQuotes ((str "\"v1\"").takeWhile (fun c => c != '='))) :=
  ⟨key_value_pair_first_segments.1 (str "KEY") (by decide),
    key_value_pair_first_segments.2.1 (str "K") (str "\"v1\"") (by decide)⟩

/-- C4 (counterexample): two consecutive stream-info tag lines produce one
variant_streams record, not one record per stream-info line. -/
theorem consecutive_stream_inf_single_record :
    ((M3U8.parse M3U8.new
        [str "#EXT-X-STREAM-INF:A=1", str "#EXT-X-STREAM-INF:B=2"]).variant_streams.length
      = 1) ∧
      ([str "#EXT-X-STREAM-INF:A=1", str "#EXT-X-STREAM-INF:B=2"].countP
          (fun l => decide (TagTypes.from_str (headToken l) = some TagTypes.ExtXStreamInf))
        = 2) := by decide

/-- C4 (amended): the variant_streams of a parse are exactly one record per
stream-info line reached by the cursor (a stream-info line consumed as a
previous tag's URI produces none), in order, each carrying a "uri" key equal
to the immediately following line, or the empty string for a trailing tag. -/
theorem variant_streams_one_record_per_reached_tag (lines : List Str) :
    (M3U8.parse M3U8.new lines).variant_streams =
        (streamInfPairs lines).map (fun p => streamInfRecord p.1 p.2) ∧
      ∀ p ∈ streamInfPairs lines,
        recGet (streamInfRecord p.1 p.2) (str "uri") = some p.2 := by
  constructor
  · simpa using parse_variant_streams M3U8.new lines
  · intro p _
    exact recGet_recInsert _ _ _

theorem variant_streams_one_record_per_reached_tag_witness :
    (M3U8.parse M3U8.new [str "#EXT-X-STREAM-INF:B=1", str "video.m3u8"]).variant_streams =
        (streamInfPairs [str "#EXT-X-STREAM-INF:B=1", str "video.m3u8"]).map
          (fun p => streamInfRecord p.1 p.2) ∧
      recGet (streamInfRecord (str "#EXT-X-STREAM-INF:B=1") (str "video.m3u8"))
        (str "uri") = some (str "video.m3u8") :=
  ⟨(variant_streams_one_record_per_reached_tag
      [str "#EXT-X-STREAM-INF:B=1", str "video.m3u8"]).1,
    (variant_streams_one_record_per_reached_tag
      [str "#EXT-X-STREAM-INF:B=1", str "video.m3u8"]).2
      (str "#EXT-X-STREAM-INF:B=1", str "video.m3u8") (by decide)⟩

/-- C7 (counterexample): an independent-segments line consumed as a
stream-info URI does not set the flag: the document below validates, has a
line classifying as independent-segments and none as version, yet parses
with independent_segments = false. -/
theorem consumed_independent_segments_ignored :
    (M3U8.validate
        [str "#EXTM3U", str "#EXT-X-STREAM-INF:A=1", str "#EXT-X-INDEPENDENT-SEGMENTS"]
      = Except.ok ()) ∧
      (∃ l ∈ [str "#EXTM3U", str "#EXT-X-STREAM-INF:A=1",
          str "#EXT-X-INDEPENDENT-SEGMENTS"],
        TagTypes.from_str (headToken l) = some TagTypes.ExtXIndependentSegments) ∧
      (∀ l ∈ [str "#EXTM3U", str "#EXT-X-STREAM-INF:A=1",
          str "#EXT-X-INDEPENDENT-SEGMENTS"],
        TagTypes.from_str (headToken l) ≠ some TagTypes.ExtXVersion) ∧
      (M3U8.parse M3U8.new
          [str "#EXTM3U", str "#EXT-X-STREAM-INF:A=1",
            str "#EXT-X-INDEPENDENT-SEGMENTS"]).independent_segments = false :=
  ⟨rfl, by decide, by decide, by decide⟩

/-- C7 (amended): a validated document with no version-classified line
parses with version "2"; and independent_segments is true iff some line
reached by the parser's cursor (i.e. not consumed as a stream-info URI)
classifies as the independent-segments tag. -/
theorem default_version_and_indep_flag (lines : List Str)
    (hv : M3U8.validate lines = Except.ok ())
    (hnov : ∀ l ∈ lines, TagTypes.from_str (headToken l) ≠ some TagTypes.ExtXVersion) :
    (M3U8.parse M3U8.new lines).version = str "2" ∧
      ((M3U8.parse M3U8.new lines).independent_segments = true ↔
        ∃ l ∈ processedLines lines,
          TagTypes.from_str (headToken l) = some TagTypes.ExtXIndependentSegments) := by
  constructor
  · exact parse_version_unchanged M3U8.new lines hnov
  · rw [parse_independent_segments]
    simp [M3U8.new, List.any_eq_true]

theorem default_version_and_indep_flag_witness :
    (M3U8.parse M3U8.new [str "#EXTM3U", str "#EXT-X-INDEPENDENT-SEGMENTS"]).version =
        str "2" ∧
      ((M3U8.parse M3U8.new
          [str "#EXTM3U", str "#EXT-X-INDEPENDENT-SEGMENTS"]).independent_segments = true ↔
        ∃ l ∈ processedLines [str "#EXTM3U", str "#EXT-X-INDEPENDENT-SEGMENTS"],
          TagTypes.from_str (headToken l) = some TagTypes.ExtXIndependentSegments) :=
  default_version_and_indep_flag [str "#EXTM3U", str "#EXT-X-INDEPENDENT-SEGMENTS"]
    rfl (by decide)
